import Mathlib

/-!
Verification of the hexya model-pool generator (`yep/models/generate.go`)
and the action registry (`yep/actions/actions.go`).

The Go code is shallowly embedded: Go maps keyed by strings are modelled as
association lists (`List (κ × α)`), reflected types (`reflect.Type`) as the
inductive `GoType`, and Go panics as `Option.none` results.  Go map iteration
order is unspecified; the association-list order stands for one fixed
iteration order.  Package-global mutable state (`modelRegistry`) is passed
explicitly as a parameter.
-/

set_option autoImplicit false
set_option linter.unusedSectionVars false

section AListDefs

variable {κ : Type} {α : Type}

/-- First-match lookup in an association list, modelling a Go map read
`m[k]` together with the `ok` flag (`none` = key absent). -/
def alookup [DecidableEq κ] : List (κ × α) → κ → Option α
  | [], _ => none
  | (k, v) :: t, k' => if k' = k then some v else alookup t k'

/-- The keys of an association list, in order. -/
def keysOf (l : List (κ × α)) : List κ := l.map Prod.fst

/-- Go map assignment `m[k] = v`: replace the value at an existing key in
place, otherwise append the new entry at the end. -/
def insertOrReplace [DecidableEq κ] : List (κ × α) → κ × α → List (κ × α)
  | [], e => [e]
  | (k, v) :: t, e => if e.1 = k then (k, e.2) :: t else (k, v) :: insertOrReplace t e

/-- Sequential Go map assignments: insert every entry of `l` into `x`,
left to right (later entries overwrite earlier ones). -/
def insertList [DecidableEq κ] (x : List (κ × α)) (l : List (κ × α)) : List (κ × α) :=
  l.foldl insertOrReplace x

/-- Map a function over the values of an association list, keeping keys. -/
def mapVals (f : α → α) (l : List (κ × α)) : List (κ × α) :=
  l.map (fun p => (p.1, f p.2))

/-- Left-biased choice on options (`some` wins), used to express
"first match wins" lookup cascades. -/
def orO : Option α → Option α → Option α
  | some v, _ => some v
  | none, b => b

/-- Boolean test that the first list is an initial segment of the second. -/
def leadsList [DecidableEq α] : List α → List α → Bool
  | [], _ => true
  | _ :: _, [] => false
  | p :: ps, c :: cs => if p = c then leadsList ps cs else false

/-- Boolean test that `suf` is a final segment of `l`. -/
def endsList [DecidableEq α] (l suf : List α) : Bool :=
  leadsList suf.reverse l.reverse

end AListDefs

section StringDefs

/-- Occurrence test for Go `strings.Contains`, on character lists. -/
def containsSubAux (pat : List Char) : List Char → Bool
  | [] => leadsList pat []
  | c :: rest => leadsList pat (c :: rest) || containsSubAux pat rest

/-- Boolean test that `pat` occurs as a contiguous substring of `s`. -/
def containsSub (s pat : String) : Bool :=
  containsSubAux pat.data s.data

/-- Replace the first (leftmost) occurrence of `pat` by `rep`, on character
lists; the list is returned unchanged when `pat` does not occur. -/
def replaceFirstAux (pat rep : List Char) : List Char → List Char
  | [] => if leadsList pat [] then rep else []
  | c :: rest =>
    if leadsList pat (c :: rest) then rep ++ (c :: rest).drop pat.length
    else c :: replaceFirstAux pat rep rest

/-- Go `strings.Replace(s, pat, rep, 1)`: replace the first occurrence of
`pat` in `s` by `rep`. -/
def replaceFirst (s pat rep : String) : String :=
  ⟨replaceFirstAux pat.data rep.data s.data⟩

end StringDefs

namespace Models

/-- Embedding of the fragment of `reflect.Type` used by `generate.go`:
a defined (named) type carries its declaring package path and its printable
name (Go `Type.String()`); pointer and slice types are unnamed composites
with empty package path; built-in types have an empty package path. -/
inductive GoType where
  | named (pkgPath : String) (printed : String)
  | ptr (elem : GoType)
  | slice (elem : GoType)
  | builtin (printed : String)
deriving DecidableEq, Repr

/-- Go `reflect.Type.String()`. -/
def goTypeString : GoType → String
  | .named _ s => s
  | .ptr e => "*" ++ goTypeString e
  | .slice e => "[]" ++ goTypeString e
  | .builtin s => s

/-- Go `reflect.Type.PkgPath()`: the declaring package path of a defined
type; empty for pointers, slices and built-ins. -/
def goPkgPath : GoType → String
  | .named p _ => p
  | .ptr _ => ""
  | .slice _ => ""
  | .builtin _ => ""

/-- Go `reflect.Type.Elem()` for the composite types modelled here (it is
only invoked on the slice type of a variadic last parameter). -/
def goElem : GoType → GoType
  | .slice e => e
  | .ptr e => e
  | t => t

/-- Import path of the `yep/models` package, the value of the
`generate.ModelsPath` constant (visible from the import lists of
`generate.go` and the test file). -/
def ModelsPath : String := "github.com/npiganeau/yep/yep/models"

/-- Import path of the generated `pool` package, the value of the
`generate.PoolPath` constant (visible from the test file's imports). -/
def PoolPath : String := "github.com/npiganeau/yep/pool"

/-- The reflected type `reflect.TypeOf(RecordCollection{})`: the generic
recordset container, declared in the `yep/models` package. -/
def RecordCollectionType : GoType :=
  .named ModelsPath "models.RecordCollection"

/-- A fieldData describes a field in a RecordSet (the Go field `Type` is
renamed `typ`: `Type` is a Lean keyword). -/
structure fieldData where
  Name : String
  typ : String
  TypeIsRS : Bool
deriving DecidableEq, Repr

/-- A methodData describes a method in a RecordSet. -/
structure methodData where
  Name : String
  Doc : String
  Params : String
  ParamsWithType : String
  Returns : String
  ReturnsIsRS : Bool
deriving DecidableEq, Repr

/-- A modelData describes a RecordSet model. -/
structure modelData where
  Name : String
  Deps : List String
  Fields : List fieldData
  Methods : List methodData
deriving DecidableEq, Repr

/-- The part of the registry's field descriptor (`fieldInfo`, declared
outside the two given files) consulted by `generate.go`: the backing
struct field's reflected type, the `isRelationField()` flag and the
relation's target model name. -/
structure FieldInfo where
  structFieldType : GoType
  isRelation : Bool
  relatedModelName : String
deriving DecidableEq, Repr

/-- The part of the registry's method descriptor (`methodInfo`) consulted
by `generate.go`: the doc string and the reflected signature
(`methodType`).  `params` are the parameter types after the receiver
(`methType.In(i+1)` for `i < NumIn()-1`); `outs` are the return types. -/
structure MethodInfo where
  doc : String
  params : List GoType
  variadic : Bool
  outs : List GoType
deriving DecidableEq, Repr

/-- The part of a `modelInfo` consulted by `generate.go`: name, field
registry, method registry, and the names of the model's mixins (the Go
code walks `mi.mixins`, a slice of `*modelInfo`, through `.name`). -/
structure ModelInfo where
  name : String
  fields : List (String × FieldInfo)
  methods : List (String × MethodInfo)
  mixins : List String
deriving DecidableEq, Repr

/-- The part of the package-global `modelRegistry` consulted by
`generate.go`, passed explicitly. -/
structure ModelRegistry where
  registryByName : List (String × ModelInfo)
  commonMixins : List String
deriving Repr

/-- A `generate.MethodRef` key: model name (may be empty) and method name. -/
abbrev MethodRef := String × String

/-- A `generate.MethodASTData` value: recovered parameter names and doc
string; the Go zero value (for a missing map key) is `⟨[], ""⟩`. -/
structure MethodASTData where
  Params : List String
  Doc : String
deriving DecidableEq, Repr

/-- The AST side-channel map passed to `GeneratePool`. -/
abbrev ASTDataMap := List (MethodRef × MethodASTData)

/-- specificMethods are generated according to specific templates and thus
must not be wrapped automatically. -/
def specificMethods : List String := ["Create", "First", "All"]

/-- Membership test in `specificMethods` (the Go `map[string]bool` read). -/
def specificB (n : String) : Bool := specificMethods.contains n

/-- sanitizedFieldType returns the sanitized name of the type and a bool
value that is true if the type is a RecordSet. -/
def sanitizedFieldType (miName : String) (typ : GoType) : String × Bool :=
  let isRC := typ == RecordCollectionType
  let typStr := if typ == RecordCollectionType then miName ++ "Set" else goTypeString typ
  (replaceFirst typStr "pool." "", isRC)

/-- The `for typ.Kind() == reflect.Ptr { typ = typ.Elem() }` stripping
loop at the top of `addDependency`. -/
def goStripPtr : GoType → GoType
  | .ptr e => goStripPtr e
  | t => t

/-- addDependency adds the given type's path as dependency to the given
modelData if not already imported.  `deps` is the set of already imported
paths (the keys of the Go `map[string]bool`), updated by this function. -/
def addDependency (data : modelData) (typ : GoType) (deps : List String) :
    modelData × List String :=
  let fDep := goPkgPath (goStripPtr typ)
  let data' := if fDep ≠ "" ∧ fDep ∉ deps then
    { data with Deps := data.Deps ++ [fDep] } else data
  let deps' := if fDep ∈ deps then deps else deps ++ [fDep]
  (data', deps')

/-- The fieldData built for one registry field by `addFieldsToModelData`. -/
def mkFieldData (mi : ModelInfo) (fieldName : String) (fi : FieldInfo) : fieldData :=
  if fi.isRelation then
    { Name := fieldName, typ := fi.relatedModelName ++ "Set", TypeIsRS := true }
  else
    { Name := fieldName, typ := (sanitizedFieldType mi.name fi.structFieldType).1,
      TypeIsRS := false }

/-- The `for fieldName, fi := range mi.fields.registryByName` loop body of
`addFieldsToModelData`. -/
def addFieldsGo (mi : ModelInfo) :
    modelData → List String → List (String × FieldInfo) → modelData × List String
  | data, deps, [] => (data, deps)
  | data, deps, (fieldName, fi) :: rest =>
    let data1 := { data with Fields := data.Fields ++ [mkFieldData mi fieldName fi] }
    let upd := addDependency data1 fi.structFieldType deps
    addFieldsGo mi upd.1 upd.2 rest

/-- addFieldsToModelData adds the fields of the given modelInfo to the
given modelData; `deps` is the set of already imported paths. -/
def addFieldsToModelData (data : modelData) (mi : ModelInfo) (deps : List String) :
    modelData × List String :=
  addFieldsGo mi data deps mi.fields

/-- The `for i := len(allMixIns) - 1; i >= 0; i--` lookup loop over the
mixin list: indices are tried from the highest down, so for `m :: rest`
all of `rest` (the higher indices) is tried before `m`. -/
def walkMixins (astData : ASTDataMap) : List String → String → Option MethodASTData
  | [], _ => none
  | m :: rest, methodName =>
    orO (walkMixins astData rest methodName) (alookup astData (m, methodName))

/-- Forward first-match-wins walk, used to state what `walkMixins`
computes: the first list element carrying an AST entry for the method. -/
def firstHit (astData : ASTDataMap) : List String → String → Option MethodASTData
  | [], _ => none
  | m :: rest, methodName =>
    match alookup astData (m, methodName) with
    | some d => some d
    | none => firstHit astData rest methodName

/-- The AST-data resolution cascade at the top of the method loop of
`addMethodsToModelData`: exact `(model, method)` key first, then the
mixin walk over `append(modelRegistry.commonMixins, mi.mixins...)` from
the last element down, then the `(\"\", method)` key, whose absence
yields the Go zero value. -/
def lookupASTData (astData : ASTDataMap) (commonMixins mixins : List String)
    (modelName methodName : String) : MethodASTData :=
  match alookup astData (modelName, methodName) with
  | some d => d
  | none =>
    match walkMixins astData (commonMixins ++ mixins) methodName with
    | some d => d
    | none => (alookup astData ("", methodName)).getD ⟨[], ""⟩

/-- The string-building part of the `for i := 0; i < methType.NumIn()-1`
loop of `addMethodsToModelData`, run on the list of (parameter name,
parameter type) pairs: the accumulated `params` and `paramsType` slices.
The variadic rewriting applies to the last parameter
(`i == methType.NumIn()-2`). -/
def buildParamStrings (miName : String) (variadic : Bool) :
    List (String × GoType) → List String × List String
  | [] => ([], [])
  | (pname, ptyp) :: rest =>
    let sane :=
      if variadic && rest.isEmpty then
        let v := sanitizedFieldType miName (goElem ptyp)
        ("..." ++ v.1, v.2)
      else sanitizedFieldType miName ptyp
    let restRes := buildParamStrings miName variadic rest
    ((if sane.2 then pname ++ ".RecordCollection" else pname) :: restRes.1,
     (pname ++ " " ++ sane.1) :: restRes.2)

/-- The dependency-registration part of the same loop: one
`addDependency(mData, methType.In(i+1), deps)` call per parameter, in
order (the registered types do not depend on the recovered names). -/
def paramDepsLoop (data : modelData) (deps : List String) :
    List GoType → modelData × List String
  | [] => (data, deps)
  | t :: rest =>
    let upd := addDependency data t deps
    paramDepsLoop upd.1 upd.2 rest

/-- The `returns, returnsIsRS` pair of the method: sanitized first return
type when the method returns something (`methType.NumOut() > 0`). -/
def mkReturns (miName : String) (outs : List GoType) : String × Bool :=
  match outs with
  | [] => ("", false)
  | o :: _ => sanitizedFieldType miName o

/-- The dependency registration for the first return type. -/
def mkReturnsDeps (outs : List GoType) (data : modelData) (deps : List String) :
    modelData × List String :=
  match outs with
  | [] => (data, deps)
  | o :: _ => addDependency data o deps

/-- The `methodData` value assembled for one (model, method) pair:
AST-resolved names zipped with the reflected parameter types (only the
first `NumIn()-1` recovered names are read). -/
def processedMethodData (reg : ModelRegistry) (mi : ModelInfo)
    (astData : ASTDataMap) (methodName : String) (methInfo : MethodInfo) :
    methodData :=
  let dParams := lookupASTData astData reg.commonMixins mi.mixins mi.name methodName
  let n := methInfo.params.length
  let strs := buildParamStrings mi.name methInfo.variadic
    ((dParams.Params.take n).zip methInfo.params)
  let ret := mkReturns mi.name methInfo.outs
  { Name := methodName, Doc := methInfo.doc,
    Params := String.intercalate ", " strs.1,
    ParamsWithType := String.intercalate ", " strs.2,
    Returns := ret.1, ReturnsIsRS := ret.2 }

/-- One iteration of the method loop of `addMethodsToModelData`: AST
lookup, parameter assembly, return assembly, and the `methodData` append.
Returns `none` where the Go code panics with an index-out-of-range on
`dParams.Params[i]`, i.e. when the recovered name list is shorter than
the reflected parameter count. -/
def processMethod (reg : ModelRegistry) (mi : ModelInfo) (astData : ASTDataMap)
    (data : modelData) (deps : List String) (methodName : String)
    (methInfo : MethodInfo) : Option (modelData × List String) :=
  let dParams := lookupASTData astData reg.commonMixins mi.mixins mi.name methodName
  let n := methInfo.params.length
  if dParams.Params.length < n then
    none
  else
    let upd0 := paramDepsLoop data deps methInfo.params
    let upd := mkReturnsDeps methInfo.outs upd0.1 upd0.2
    some ({ upd.1 with Methods := upd.1.Methods ++
      [processedMethodData reg mi astData methodName methInfo] }, upd.2)

/-- The `for methodName, methInfo := range mi.methods.registry` loop of
`addMethodsToModelData`, skipping `specificMethods`. -/
def addMethodsGo (reg : ModelRegistry) (mi : ModelInfo) (astData : ASTDataMap) :
    modelData → List String → List (String × MethodInfo) →
    Option (modelData × List String)
  | data, deps, [] => some (data, deps)
  | data, deps, (methodName, methInfo) :: rest =>
    if specificB methodName then addMethodsGo reg mi astData data deps rest
    else
      match processMethod reg mi astData data deps methodName methInfo with
      | none => none
      | some upd => addMethodsGo reg mi astData upd.1 upd.2 rest

/-- addMethodsToModelData adds the methods of the given modelInfo to the
given modelData. -/
def addMethodsToModelData (reg : ModelRegistry) (data : modelData) (mi : ModelInfo)
    (astData : ASTDataMap) (deps : List String) : Option (modelData × List String) :=
  addMethodsGo reg mi astData data deps mi.methods

/-- The modelData assembly of `generateModelPoolFile`: `deps` is seeded
with `generate.PoolPath`, the `Deps` list with `generate.ModelsPath`,
then fields and methods are added; `none` models the Go panic aborting
before `generate.CreateFileFromTemplate` is reached, so no output file is
produced for the model. -/
def buildModelData (reg : ModelRegistry) (mi : ModelInfo) (astData : ASTDataMap) :
    Option modelData :=
  let deps := [PoolPath]
  let mData : modelData := { Name := mi.name, Deps := [ModelsPath],
                             Fields := [], Methods := [] }
  let afterFields := addFieldsToModelData mData mi deps
  match addMethodsToModelData reg afterFields.1 mi astData afterFields.2 with
  | none => none
  | some upd => some upd.1

/-- Models Go `path.Join(dir, name)` for a clean directory argument
without a trailing slash (`path.Join("", f) = f`). -/
def joinPath (dir name : String) : String :=
  if dir = "" then name else dir ++ "/" ++ name

/-- The per-model file loop of `GeneratePool`: for each registered model,
the output file name `fmt.Sprintf("%s.go", strings.ToLower(modelName))`
joined onto the caller-supplied directory, paired with the generated
model data (the file's template input); `strings.ToLower` is modelled by
`String.toLower` (ASCII case folding). -/
def generatePoolOutputs (dir : String) (reg : ModelRegistry)
    (astData : ASTDataMap) : List (String × Option modelData) :=
  reg.registryByName.map
    (fun p => (joinPath dir (p.1.toLower ++ ".go"), buildModelData reg p.2 astData))

end Models

namespace BootSim

/-- Modelled from the spec: the registry's field descriptor as described
in section 3 of the spec — declared value type, "is relation" flag,
target model name — together with the resolved link (`target`) that
`createModelLinks` fills in (the Go code resolving links,
`createModelLinks`, is not among the given source files). -/
structure SField where
  typ : String
  isRelation : Bool
  relatedModelName : String
  target : Option String
deriving DecidableEq, Repr

/-- Modelled from the spec: the method descriptor's payload (signature
summary and documentation); its exact shape does not matter for the
composition claims. -/
structure SMethod where
  sig : String
  doc : String
deriving DecidableEq, Repr

/-- Modelled from the spec: one model's static declarations — its own
field and method descriptors and the names of its declared mixins and
embedded models, in declaration order. -/
structure SModelDecl where
  ownFields : List (String × SField)
  ownMethods : List (String × SMethod)
  mixins : List String
  embeds : List String
deriving Repr

/-- The immutable static declaration set the bootstrap simulation is run
from. -/
abbrev StaticDecls := List (String × SModelDecl)

/-- One model's composed (inflated) member sets. -/
structure SComposed where
  fields : List (String × SField)
  methods : List (String × SMethod)
deriving DecidableEq, Repr

/-- The mutable composed registry the bootstrap-simulation steps operate
on. -/
abbrev SRegistry := List (String × SComposed)

/-- The initial composed state: every model starts from its own static
declarations. -/
def initRegistry (decls : StaticDecls) : SRegistry :=
  decls.map (fun p => (p.1, { fields := p.2.ownFields, methods := p.2.ownMethods }))

/-- Modelled from the spec: `createModelLinks` resolves, for every
relation field, the named cross-model reference once all models are
known; an unknown target stays unresolved (`none`), the configuration
error. The resolution depends only on the static declarations and the
field's own static attributes. -/
def linkField (decls : StaticDecls) (f : SField) : SField :=
  { f with target :=
      if f.isRelation then (alookup decls f.relatedModelName).map (fun _ => f.relatedModelName)
      else none }

/-- The link pass over the whole registry. -/
def createModelLinks (decls : StaticDecls) (st : SRegistry) : SRegistry :=
  st.map (fun p => (p.1,
    { fields := mapVals (linkField decls) p.2.fields, methods := p.2.methods }))

/-- The declared fields of every mixin of model `n`, concatenated in
mixin-declaration order. -/
def mixinFieldsOf (decls : StaticDecls) (n : String) : List (String × SField) :=
  ((((alookup decls n).map SModelDecl.mixins).getD []).map
    (fun mx => ((alookup decls mx).map SModelDecl.ownFields).getD [])).flatten

/-- The declared methods of every mixin of model `n`, concatenated in
mixin-declaration order. -/
def mixinMethodsOf (decls : StaticDecls) (n : String) : List (String × SMethod) :=
  ((((alookup decls n).map SModelDecl.mixins).getD []).map
    (fun mx => ((alookup decls mx).map SModelDecl.ownMethods).getD [])).flatten

/-- The declared fields of every embedded model of model `n`. -/
def embedFieldsOf (decls : StaticDecls) (n : String) : List (String × SField) :=
  ((((alookup decls n).map SModelDecl.embeds).getD []).map
    (fun mx => ((alookup decls mx).map SModelDecl.ownFields).getD [])).flatten

/-- The declared methods of every embedded model of model `n`. -/
def embedMethodsOf (decls : StaticDecls) (n : String) : List (String × SMethod) :=
  ((((alookup decls n).map SModelDecl.embeds).getD []).map
    (fun mx => ((alookup decls mx).map SModelDecl.ownMethods).getD [])).flatten

/-- The model's own static field declarations. -/
def ownFieldsOf (decls : StaticDecls) (n : String) : List (String × SField) :=
  ((alookup decls n).map SModelDecl.ownFields).getD []

/-- The model's own static method declarations. -/
def ownMethodsOf (decls : StaticDecls) (n : String) : List (String × SMethod) :=
  ((alookup decls n).map SModelDecl.ownMethods).getD []

/-- Modelled from the spec: `inflateMixIns` copies, for every model,
every field and method from each of its declared mixins into its own
composed descriptor, in mixin-declaration order, with later mixins
overriding earlier ones (map overwrite) and the model's own declarations
overriding all mixins (re-asserted last). -/
def inflateMixIns (decls : StaticDecls) (st : SRegistry) : SRegistry :=
  st.map (fun p => (p.1,
    { fields := insertList (insertList p.2.fields (mixinFieldsOf decls p.1))
        (ownFieldsOf decls p.1),
      methods := insertList (insertList p.2.methods (mixinMethodsOf decls p.1))
        (ownMethodsOf decls p.1) }))

/-- Modelled from the spec: `inflateEmbeddings` does the same as
`inflateMixIns` for embedded models. -/
def inflateEmbeddings (decls : StaticDecls) (st : SRegistry) : SRegistry :=
  st.map (fun p => (p.1,
    { fields := insertList (insertList p.2.fields (embedFieldsOf decls p.1))
        (ownFieldsOf decls p.1),
      methods := insertList (insertList p.2.methods (embedMethodsOf decls p.1))
        (ownMethodsOf decls p.1) }))

/-- The bootstrap-simulation steps in the order `GeneratePool` runs them:
model linking, mixin inflation, embedding inflation. -/
def bootstrapSimulation (decls : StaticDecls) (st : SRegistry) : SRegistry :=
  inflateEmbeddings decls (inflateMixIns decls (createModelLinks decls st))

/-- One model's full composition pass: value relinking followed by the
two insert-then-override passes; `bootstrapSimulation` acts as this map
on each registry entry. -/
def composePass {α : Type} [DecidableEq α] (f : α → α)
    (m o e : List (String × α)) (x : List (String × α)) : List (String × α) :=
  insertList (insertList (insertList (insertList (mapVals f x) m) o) e) o

end BootSim

namespace Actions

/-- A JSON value, as far as `ActionRef` marshalling needs it. -/
inductive Json where
  | null
  | str (s : String)
  | arr (elems : List Json)
deriving Repr

/-- ActionRef is an array of two strings representing an action: the ID
and the name (`[2]string`; `.1` is index 0). -/
abbrev ActionRef := String × String

/-- The definition of an action.  Only the fields consulted by the
operations under verification are modelled: `ID` (the registry key) and
`Name` (copied into references); the remaining Go struct fields are
payload carried along and never read by the registry or by
`MakeActionRef`. -/
structure BaseAction where
  ID : String
  Name : String
deriving DecidableEq, Repr

/-- A Collection is a collection of actions: the `actions
map[string]*BaseAction` table (the `sync.RWMutex` is modelled separately
as an operation trace, see `RegOp`). -/
abbrev Collection := List (String × BaseAction)

/-- NewActionsCollection returns a fresh empty collection. -/
def newActionsCollection : Collection := []

/-- Add adds the given action to the Collection:
`ar.actions[a.ID] = a`. -/
def Collection.add (c : Collection) (a : BaseAction) : Collection :=
  insertOrReplace c (a.ID, a)

/-- GetById returns the Action with the given id (`nil` = `none`). -/
def Collection.getById (c : Collection) (id : String) : Option BaseAction :=
  alookup c id

/-- MakeActionRef creates an ActionRef from an action id. -/
def makeActionRef (c : Collection) (id : String) : ActionRef :=
  match c.getById id with
  | none => ("", "")
  | some action => (id, action.Name)

/-- MarshalJSON is the JSON marshalling method of ActionRef.  It marshals
empty ActionRef into null instead of a two-string array. -/
def marshalActionRef (ar : ActionRef) : Json :=
  if ar.1 = "" then Json.null
  else Json.arr [Json.str ar.1, Json.str ar.2]

/-- The dynamic value handed to `ActionRef.Scan`: a string, a byte slice
(carrying its decoded string content), or a value of any other type
(carrying its printed type name `%T`). -/
inductive ScanSrc where
  | str (s : String)
  | bytes (s : String)
  | other (typeName : String)
deriving DecidableEq, Repr

/-- The string content of a scan source, when it has one. -/
def scanSrcString : ScanSrc → Option String
  | .str s => some s
  | .bytes s => some s
  | .other _ => none

/-- Scan fetches the name of the action from the ID stored in the
database to fill the ActionRef: on a string or byte-slice source the
receiver is overwritten with `makeActionRef`, on any other source an
error is returned and the receiver is left unchanged. -/
def scanActionRef (c : Collection) (ar : ActionRef) (src : ScanSrc) :
    ActionRef × Option String :=
  match src with
  | .str s => (makeActionRef c s, none)
  | .bytes s => (makeActionRef c s, none)
  | .other t => (ar, some ("Invalid type for ActionRef: " ++ t))

/-- One primitive step of a registry method, for stating the
lock-discipline claim: acquiring/releasing the write or read side of the
collection's `sync.RWMutex`, or touching the `actions` map. -/
inductive RegOp where
  | lockW
  | unlockW
  | lockR
  | unlockR
  | mapRead (id : String)
  | mapWrite (id : String)
deriving DecidableEq, Repr

/-- The operation trace of `Collection.Add`: `ar.Lock()`, the map write,
then the deferred `ar.Unlock()`. -/
def addOps (a : BaseAction) : List RegOp :=
  [RegOp.lockW, RegOp.mapWrite a.ID, RegOp.unlockW]

/-- The operation trace of `Collection.GetById`: the bare map read — the
source acquires no lock. -/
def getByIdOps (id : String) : List RegOp :=
  [RegOp.mapRead id]

/-- Checks that every map access in the trace happens while some side of
the lock is held (`held` tracks the lock state). -/
def opsGuarded (held : Bool) : List RegOp → Bool
  | [] => true
  | RegOp.lockW :: t => opsGuarded true t
  | RegOp.unlockW :: t => opsGuarded false t
  | RegOp.lockR :: t => opsGuarded true t
  | RegOp.unlockR :: t => opsGuarded false t
  | RegOp.mapRead _ :: t => held && opsGuarded held t
  | RegOp.mapWrite _ :: t => held && opsGuarded held t

/-- A method trace is guarded when every map access in it is performed
under the lock, starting from the unlocked state. -/
def accessesGuarded (ops : List RegOp) : Bool :=
  opsGuarded false ops

end Actions

namespace Examples

open Models BootSim Actions

/-- A relation field descriptor: the `Profile` field of the test model
`Test__User`, backed by a `RecordCollection` struct field targeting
`Test__Profile`. -/
def exProfileField : FieldInfo :=
  { structFieldType := RecordCollectionType, isRelation := true,
    relatedModelName := "Test__Profile" }

/-- A non-specific method with one `int` parameter and no return. -/
def exFoo : MethodInfo :=
  { doc := "// Foo is an example method", params := [GoType.builtin "int"],
    variadic := false, outs := [] }

/-- The reserved `Create` method (skipped by the generic wrapper loop). -/
def exCreateInfo : MethodInfo :=
  { doc := "", params := [GoType.ptr (GoType.named PoolPath "pool.Test__User")],
    variadic := false, outs := [RecordCollectionType] }

/-- A concrete model with one relation field and the methods above. -/
def exUser : ModelInfo :=
  { name := "Test__User", fields := [("Profile", exProfileField)],
    methods := [("Create", exCreateInfo), ("Foo", exFoo)], mixins := [] }

/-- A registry holding only `exUser`, with no common mixins. -/
def exReg : ModelRegistry :=
  { registryByName := [("Test__User", exUser)], commonMixins := [] }

/-- AST data whose recovered name list for `Foo` has two names although
the reflected method has a single parameter. -/
def exAst : ASTDataMap :=
  [(("Test__User", "Foo"), { Params := ["a", "b"], Doc := "Foo doc" })]

/-- A method with two parameters, for the too-short-name-list case. -/
def exBar : MethodInfo :=
  { doc := "", params := [GoType.builtin "int", GoType.builtin "string"],
    variadic := false, outs := [] }

/-- A model whose only method is `exBar`. -/
def exPost : ModelInfo :=
  { name := "Test__Post", fields := [], methods := [("Bar", exBar)], mixins := [] }

/-- A registry holding only `exPost`. -/
def exReg2 : ModelRegistry :=
  { registryByName := [("Test__Post", exPost)], commonMixins := [] }

/-- AST data whose name list for `Bar` has one name for two parameters. -/
def exAst2 : ASTDataMap :=
  [(("Test__Post", "Bar"), { Params := ["x"], Doc := "" })]

/-- A model with no fields and two methods, one reserved, for the
method-exclusion witness. -/
def exM7 : ModelInfo :=
  { name := "M", fields := [],
    methods := [("Create", exCreateInfo),
                ("Go7", { doc := "", params := [], variadic := false, outs := [] })],
    mixins := [] }

/-- A registry for `exM7`. -/
def exReg7 : ModelRegistry := { registryByName := [("M", exM7)], commonMixins := [] }

/-- An empty modelData accumulator. -/
def exData0 : modelData := { Name := "M", Deps := [], Fields := [], Methods := [] }

/-- AST data for the resolution-order witness: entries for the two
mixins of the model but none for the model itself. -/
def exAst4 : ASTDataMap :=
  [(("MixA", "Fn"), { Params := ["pa"], Doc := "from A" }),
   (("MixB", "Fn"), { Params := ["pb"], Doc := "from B" })]

/-- A plain field declaration for the bootstrap witness. -/
def sfPlain : SField :=
  { typ := "string", isRelation := false, relatedModelName := "", target := none }

/-- A relation field declaration for the bootstrap witness. -/
def sfRel : SField :=
  { typ := "RecordCollection", isRelation := true,
    relatedModelName := "Test__Profile", target := none }

/-- Static declarations: a mixin and a model using it. -/
def exDecls : StaticDecls :=
  [("ActiveMixin",
    { ownFields := [("Active", sfPlain)],
      ownMethods := [("Archive", { sig := "func()", doc := "archive" })],
      mixins := [], embeds := [] }),
   ("Test__User",
    { ownFields := [("UserName", sfPlain), ("Profile", sfRel)],
      ownMethods := [], mixins := ["ActiveMixin"], embeds := [] }),
   ("Test__Profile",
    { ownFields := [("Age", sfPlain)], ownMethods := [],
      mixins := [], embeds := [] })]

/-- The action registered in the identity scenario. -/
def exAction : BaseAction := { ID := "a1", Name := "My Action" }

/-- A default model descriptor, used as a `getD` fallback. -/
def miDefault : ModelInfo :=
  { name := "", fields := [], methods := [], mixins := [] }

end Examples

section AListLemmas

variable {κ : Type} {α : Type} [DecidableEq κ]

theorem orO_assoc (a b c : Option α) : orO (orO a b) c = orO a (orO b c) := by
  cases a <;> rfl

theorem orO_none_left (b : Option α) : orO none b = b := rfl

theorem alookup_append (a b : List (κ × α)) (k : κ) :
    alookup (a ++ b) k = orO (alookup a k) (alookup b k) := by
  induction a with
  | nil => simp [alookup, orO]
  | cons p t ih =>
    obtain ⟨k₀, v₀⟩ := p
    by_cases h : k = k₀ <;> simp [alookup, h, ih, orO]

theorem alookup_insertOrReplace (x : List (κ × α)) (k₀ : κ) (v₀ : α) (k : κ) :
    alookup (insertOrReplace x (k₀, v₀)) k = if k = k₀ then some v₀ else alookup x k := by
  induction x with
  | nil => simp [insertOrReplace, alookup]
  | cons p t ih =>
    obtain ⟨k₁, v₁⟩ := p
    by_cases h₁ : k₀ = k₁
    · subst h₁
      by_cases h₂ : k = k₀ <;> simp [insertOrReplace, alookup, h₂]
    · by_cases h₂ : k = k₁
      · subst h₂
        have h₃ : ¬k = k₀ := fun h => h₁ h.symm
        simp [insertOrReplace, alookup, h₁, h₃]
      · by_cases h₃ : k = k₀
        · subst h₃
          simp [insertOrReplace, alookup, h₁, h₂, ih]
        · simp [insertOrReplace, alookup, h₁, h₂, h₃, ih]

theorem keysOf_nil : keysOf ([] : List (κ × α)) = [] := rfl

theorem keysOf_cons (p : κ × α) (t : List (κ × α)) :
    keysOf (p :: t) = p.1 :: keysOf t := rfl

theorem keysOf_insertOrReplace (x : List (κ × α)) (e : κ × α) :
    keysOf (insertOrReplace x e) =
      if e.1 ∈ keysOf x then keysOf x else keysOf x ++ [e.1] := by
  induction x with
  | nil => simp [insertOrReplace, keysOf]
  | cons p t ih =>
    obtain ⟨k₁, v₁⟩ := p
    by_cases h₁ : e.1 = k₁
    · simp [insertOrReplace, keysOf_cons, h₁]
    · by_cases h₂ : e.1 ∈ keysOf t <;>
        simp [insertOrReplace, keysOf_cons, h₁, h₂, ih]

theorem keysOf_mapVals (f : α → α) (l : List (κ × α)) :
    keysOf (mapVals f l) = keysOf l := by
  simp [keysOf, mapVals]

theorem alookup_mapVals (f : α → α) (l : List (κ × α)) (k : κ) :
    alookup (mapVals f l) k = (alookup l k).map f := by
  induction l with
  | nil => simp [mapVals, alookup]
  | cons p t ih =>
    obtain ⟨k₁, v₁⟩ := p
    simp only [mapVals] at ih ⊢
    by_cases h : k = k₁ <;> simp [alookup, h, ih]

theorem insertList_nil (x : List (κ × α)) : insertList x [] = x := rfl

theorem insertList_cons (x : List (κ × α)) (e : κ × α) (l : List (κ × α)) :
    insertList x (e :: l) = insertList (insertOrReplace x e) l := rfl

theorem alookup_insertList (x l : List (κ × α)) (k : κ) :
    alookup (insertList x l) k = orO (alookup l.reverse k) (alookup x k) := by
  induction l generalizing x with
  | nil => simp [insertList, alookup, orO]
  | cons e t ih =>
    obtain ⟨k₀, v₀⟩ := e
    rw [insertList_cons, ih, List.reverse_cons, alookup_append, orO_assoc]
    have h1 : alookup [(k₀, v₀)] k = if k = k₀ then some v₀ else none := by
      simp [alookup]
    rw [h1, alookup_insertOrReplace]
    by_cases h : k = k₀ <;> cases halt : alookup t.reverse k <;> simp [h, orO]

theorem alookup_eq_none_of_not_mem (l : List (κ × α)) (k : κ) (h : k ∉ keysOf l) :
    alookup l k = none := by
  induction l with
  | nil => rfl
  | cons p t ih =>
    obtain ⟨k₁, v₁⟩ := p
    rw [keysOf_cons, List.mem_cons] at h
    push_neg at h
    simp [alookup, h.1, ih h.2]

theorem mem_keysOf_insertOrReplace_left (x : List (κ × α)) (e : κ × α) (k : κ)
    (h : k ∈ keysOf x) : k ∈ keysOf (insertOrReplace x e) := by
  rw [keysOf_insertOrReplace]
  by_cases he : e.1 ∈ keysOf x <;> simp [he, h]

theorem mem_keysOf_insertList_left (x l : List (κ × α)) (k : κ)
    (h : k ∈ keysOf x) : k ∈ keysOf (insertList x l) := by
  induction l generalizing x with
  | nil => exact h
  | cons e t ih =>
    rw [insertList_cons]
    exact ih _ (mem_keysOf_insertOrReplace_left x e k h)

theorem mem_keysOf_insertList_right (x l : List (κ × α)) (k : κ)
    (h : k ∈ keysOf l) : k ∈ keysOf (insertList x l) := by
  induction l generalizing x with
  | nil => simp [keysOf] at h
  | cons e t ih =>
    rw [keysOf_cons, List.mem_cons] at h
    rw [insertList_cons]
    rcases h with h | h
    · apply mem_keysOf_insertList_left
      rw [keysOf_insertOrReplace]
      by_cases he : e.1 ∈ keysOf x <;> simp [he, h]
    · exact ih _ h

theorem keysOf_insertList_of_subset (x l : List (κ × α))
    (h : ∀ k ∈ keysOf l, k ∈ keysOf x) : keysOf (insertList x l) = keysOf x := by
  induction l generalizing x with
  | nil => rfl
  | cons e t ih =>
    rw [insertList_cons]
    have he : e.1 ∈ keysOf x := h e.1 (by simp [keysOf_cons])
    have hk : keysOf (insertOrReplace x e) = keysOf x := by
      rw [keysOf_insertOrReplace, if_pos he]
    rw [ih _ (fun k hk' => ?_), hk]
    rw [hk]
    exact h k (by simp [keysOf_cons, hk'])

theorem nodup_keysOf_insertOrReplace (x : List (κ × α)) (e : κ × α)
    (h : (keysOf x).Nodup) : (keysOf (insertOrReplace x e)).Nodup := by
  rw [keysOf_insertOrReplace]
  by_cases he : e.1 ∈ keysOf x
  · simpa [he] using h
  · simp only [he, if_false]
    refine List.Nodup.append h (List.nodup_singleton _) ?_
    intro a ha hb
    simp only [List.mem_singleton] at hb
    exact he (hb ▸ ha)

theorem nodup_keysOf_insertList (x l : List (κ × α))
    (h : (keysOf x).Nodup) : (keysOf (insertList x l)).Nodup := by
  induction l generalizing x with
  | nil => exact h
  | cons e t ih =>
    rw [insertList_cons]
    exact ih _ (nodup_keysOf_insertOrReplace x e h)

theorem alist_ext (a b : List (κ × α)) (hk : keysOf a = keysOf b)
    (hn : (keysOf a).Nodup) (hl : ∀ k, alookup a k = alookup b k) : a = b := by
  induction a generalizing b with
  | nil =>
    cases b with
    | nil => rfl
    | cons p t => simp [keysOf] at hk
  | cons p t ih =>
    obtain ⟨k₀, v₀⟩ := p
    cases b with
    | nil => simp [keysOf] at hk
    | cons q u =>
      obtain ⟨k₁, v₁⟩ := q
      rw [keysOf_cons, keysOf_cons] at hk
      obtain ⟨hk0, hkt⟩ := List.cons.inj hk
      subst hk0
      have hv : v₀ = v₁ := by
        have := hl k₀
        simpa [alookup] using this
      subst hv
      rw [keysOf_cons] at hn
      have hn' := List.nodup_cons.mp hn
      refine congrArg _ (ih u hkt hn'.2 (fun k => ?_))
      by_cases h : k = k₀
      · subst h
        rw [alookup_eq_none_of_not_mem t k hn'.1,
          alookup_eq_none_of_not_mem u k (hkt ▸ hn'.1)]
      · have := hl k
        simpa [alookup, h] using this

end AListLemmas

namespace BootSim

theorem composePass_idem {α : Type} [DecidableEq α] (f : α → α)
    (hf : ∀ v, f (f v) = f v) (m o e : List (String × α)) (x : List (String × α))
    (hx : (keysOf x).Nodup) :
    composePass f m o e (composePass f m o e x) = composePass f m o e x := by
  set c := composePass f m o e x with hc
  have hm : ∀ k ∈ keysOf m, k ∈ keysOf c := by
    intro k hk
    rw [hc]
    unfold composePass
    exact mem_keysOf_insertList_left _ _ _ (mem_keysOf_insertList_left _ _ _
      (mem_keysOf_insertList_left _ _ _ (mem_keysOf_insertList_right _ _ _ hk)))
  have ho : ∀ k ∈ keysOf o, k ∈ keysOf c := by
    intro k hk
    rw [hc]
    unfold composePass
    exact mem_keysOf_insertList_right _ _ _ hk
  have he : ∀ k ∈ keysOf e, k ∈ keysOf c := by
    intro k hk
    rw [hc]
    unfold composePass
    exact mem_keysOf_insertList_left _ _ _ (mem_keysOf_insertList_right _ _ _ hk)
  have hnc : (keysOf c).Nodup := by
    rw [hc]
    unfold composePass
    exact nodup_keysOf_insertList _ _ (nodup_keysOf_insertList _ _
      (nodup_keysOf_insertList _ _ (nodup_keysOf_insertList _ _
        (by rwa [keysOf_mapVals]))))
  have k1 : keysOf (mapVals f c) = keysOf c := keysOf_mapVals f c
  have k2 : keysOf (insertList (mapVals f c) m) = keysOf c :=
    (keysOf_insertList_of_subset _ m (fun k hk => k1 ▸ hm k hk)).trans k1
  have k3 : keysOf (insertList (insertList (mapVals f c) m) o) = keysOf c :=
    (keysOf_insertList_of_subset _ o (fun k hk => k2 ▸ ho k hk)).trans k2
  have k4 : keysOf (insertList (insertList (insertList (mapVals f c) m) o) e)
      = keysOf c :=
    (keysOf_insertList_of_subset _ e (fun k hk => k3 ▸ he k hk)).trans k3
  have hkeys : keysOf (composePass f m o e c) = keysOf c := by
    unfold composePass
    exact (keysOf_insertList_of_subset _ o (fun k hk => k4 ▸ ho k hk)).trans k4
  have hck : ∀ k, alookup c k =
      orO (alookup o.reverse k) (orO (alookup e.reverse k)
        (orO (alookup o.reverse k) (orO (alookup m.reverse k)
          ((alookup x k).map f)))) := by
    intro k
    rw [hc]
    unfold composePass
    rw [alookup_insertList, alookup_insertList, alookup_insertList,
      alookup_insertList, alookup_mapVals]
  have hlook : ∀ k, alookup (composePass f m o e c) k = alookup c k := by
    intro k
    unfold composePass
    rw [alookup_insertList, alookup_insertList, alookup_insertList,
      alookup_insertList, alookup_mapVals, hck k]
    cases alookup o.reverse k <;> cases alookup e.reverse k <;>
      cases alookup m.reverse k <;> cases alookup x k <;> simp [orO, hf]
  exact alist_ext _ _ hkeys (hkeys ▸ hnc) hlook

theorem mapVals_id {κ : Type} {α : Type} (l : List (κ × α)) :
    mapVals id l = l := by
  simp [mapVals]

theorem linkField_idem (decls : StaticDecls) (v : SField) :
    linkField decls (linkField decls v) = linkField decls v := by
  simp [linkField]

theorem bootstrapSimulation_eq_map (decls : StaticDecls) (st : SRegistry) :
    bootstrapSimulation decls st = st.map (fun p => (p.1,
      { fields := composePass (linkField decls) (mixinFieldsOf decls p.1)
          (ownFieldsOf decls p.1) (embedFieldsOf decls p.1) p.2.fields,
        methods := composePass id (mixinMethodsOf decls p.1)
          (ownMethodsOf decls p.1) (embedMethodsOf decls p.1) p.2.methods })) := by
  unfold bootstrapSimulation createModelLinks inflateMixIns inflateEmbeddings
  rw [List.map_map, List.map_map]
  apply List.map_congr_left
  intro p _
  simp only [Function.comp]
  unfold composePass
  rw [mapVals_id]

/-- C3: running the bootstrap-simulation steps that `GeneratePool`
replays — model linking, mixin inflation, embedding inflation — a second
time from the same static declarations yields exactly the same composed
field and method sets for every model as running them once, for any
starting registry whose per-model composed member names are
duplicate-free. -/
theorem c3_bootstrap_idempotent (decls : StaticDecls) (st : SRegistry)
    (h : ∀ p ∈ st, (keysOf p.2.fields).Nodup ∧ (keysOf p.2.methods).Nodup) :
    bootstrapSimulation decls (bootstrapSimulation decls st) =
      bootstrapSimulation decls st := by
  rw [bootstrapSimulation_eq_map decls st,
    bootstrapSimulation_eq_map decls, List.map_map]
  apply List.map_congr_left
  intro p hp
  simp only [Function.comp]
  rw [composePass_idem (linkField decls) (linkField_idem decls) _ _ _ _ (h p hp).1,
    composePass_idem id (fun _ => rfl) _ _ _ _ (h p hp).2]

/-- Witness for C3 at a concrete declaration set (a mixin, a model using
it and a relation target), starting from the initial composed state. -/
theorem c3_bootstrap_idempotent_witness :
    bootstrapSimulation Examples.exDecls
        (bootstrapSimulation Examples.exDecls (initRegistry Examples.exDecls)) =
      bootstrapSimulation Examples.exDecls (initRegistry Examples.exDecls) :=
  c3_bootstrap_idempotent Examples.exDecls (initRegistry Examples.exDecls) (by decide)

end BootSim

section StringLemmas

theorem leadsList_append_self {α : Type} [DecidableEq α] (p q : List α) :
    leadsList p (p ++ q) = true := by
  induction p with
  | nil => rfl
  | cons c t ih => simp [leadsList, ih]

theorem endsList_append {α : Type} [DecidableEq α] (l suf : List α) :
    endsList (l ++ suf) suf = true := by
  unfold endsList
  rw [List.reverse_append]
  exact leadsList_append_self _ _

theorem replaceFirstAux_no_occ (pat rep l : List Char)
    (h : containsSubAux pat l = false) : replaceFirstAux pat rep l = l := by
  induction l with
  | nil =>
    unfold containsSubAux at h
    unfold replaceFirstAux
    simp [h]
  | cons c t ih =>
    unfold containsSubAux at h
    rw [Bool.or_eq_false_iff] at h
    unfold replaceFirstAux
    simp [h.1, ih h.2]

theorem replaceFirst_no_occ (s pat rep : String)
    (h : containsSub s pat = false) : replaceFirst s pat rep = s := by
  obtain ⟨l⟩ := s
  unfold containsSub at h
  unfold replaceFirst
  exact congrArg String.mk (replaceFirstAux_no_occ _ _ _ h)

end StringLemmas

namespace Models

theorem set_suffix_ne_container (s : String) :
    s ++ "Set" ≠ goTypeString RecordCollectionType := by
  intro h
  obtain ⟨l⟩ := s
  have h2 : endsList ((String.mk l ++ "Set").data) "Set".data = true := by
    have hd : (String.mk l ++ "Set").data = l ++ "Set".data := rfl
    rw [hd]
    exact endsList_append l _
  rw [h] at h2
  exact absurd h2 (by decide)

theorem addDependency_Fields (data : modelData) (typ : GoType) (deps : List String) :
    (addDependency data typ deps).1.Fields = data.Fields := by
  by_cases h : goPkgPath (goStripPtr typ) ≠ "" ∧ goPkgPath (goStripPtr typ) ∉ deps <;>
    simp [addDependency, h]

theorem addDependency_Methods (data : modelData) (typ : GoType) (deps : List String) :
    (addDependency data typ deps).1.Methods = data.Methods := by
  by_cases h : goPkgPath (goStripPtr typ) ≠ "" ∧ goPkgPath (goStripPtr typ) ∉ deps <;>
    simp [addDependency, h]

theorem addFieldsGo_Fields (mi : ModelInfo) (l : List (String × FieldInfo)) :
    ∀ (data : modelData) (deps : List String),
      (addFieldsGo mi data deps l).1.Fields =
        data.Fields ++ l.map (fun p => mkFieldData mi p.1 p.2) := by
  induction l with
  | nil => intro data deps; simp [addFieldsGo]
  | cons p t ih =>
    intro data deps
    obtain ⟨fieldName, fi⟩ := p
    unfold addFieldsGo
    rw [ih, addDependency_Fields]
    simp

theorem paramDepsLoop_Methods (l : List GoType) :
    ∀ (data : modelData) (deps : List String),
      (paramDepsLoop data deps l).1.Methods = data.Methods := by
  induction l with
  | nil => intro data deps; rfl
  | cons t rest ih =>
    intro data deps
    unfold paramDepsLoop
    rw [ih, addDependency_Methods]

theorem mkReturnsDeps_Methods (outs : List GoType) (data : modelData)
    (deps : List String) : (mkReturnsDeps outs data deps).1.Methods = data.Methods := by
  cases outs with
  | nil => rfl
  | cons o t => exact addDependency_Methods data o deps

theorem processMethod_split (reg : ModelRegistry) (mi : ModelInfo)
    (astData : ASTDataMap) (data : modelData) (deps : List String)
    (methodName : String) (methInfo : MethodInfo) (d' : modelData)
    (dp' : List String)
    (h : processMethod reg mi astData data deps methodName methInfo = some (d', dp')) :
    d'.Methods = data.Methods ++
      [processedMethodData reg mi astData methodName methInfo] := by
  unfold processMethod at h
  by_cases hlen : (lookupASTData astData reg.commonMixins mi.mixins mi.name
      methodName).Params.length < methInfo.params.length
  · simp [hlen] at h
  · simp only [hlen, if_false, Option.some.injEq, Prod.mk.injEq] at h
    rw [← h.1]
    simp only []
    rw [mkReturnsDeps_Methods, paramDepsLoop_Methods]

theorem processedMethodData_Name (reg : ModelRegistry) (mi : ModelInfo)
    (astData : ASTDataMap) (methodName : String) (methInfo : MethodInfo) :
    (processedMethodData reg mi astData methodName methInfo).Name = methodName := rfl

theorem sanitizedFieldType_container (miName : String)
    (hpool : containsSub (miName ++ "Set") "pool." = false) :
    sanitizedFieldType miName RecordCollectionType = (miName ++ "Set", true) := by
  unfold sanitizedFieldType
  simp only [beq_self_eq_true, if_true]
  rw [replaceFirst_no_occ _ _ _ hpool]

/-- C1: for every model under generation, a field or method return value
whose reflected type is the generic `RecordCollection` container is
emitted with the `<TargetModel>Set` wrapper name and never as the raw
container type.  In order: (1) `addFieldsToModelData` emits exactly one
entry per registry field, built by `mkFieldData`; (2) a relation field is
emitted as `<relatedModelName>Set` (the relation's target model) with the
recordset flag set, and the emitted name differs from the container's
printable name; (3) a field whose reflected type is the container but is
not flagged as a relation is still emitted as a `...Set` wrapper name,
never the raw container name; (4) a method return value of the container
type is emitted as `<model>Set` — the model under generation, which is
the target a reflected `RecordCollection` return resolves to — with the
recordset flag set, never the raw container name; (5) the `methodData`
that `processMethod` appends carries exactly those resolved returns.
The hypothesis states that the model name does not contain the `pool.`
qualifier stripped by `sanitizedFieldType` (model names are Go
identifiers, so they contain no dot). -/
theorem c1_relation_rewrapping (mi : ModelInfo)
    (hpool : containsSub (mi.name ++ "Set") "pool." = false) :
    (∀ (data : modelData) (deps : List String),
        (addFieldsToModelData data mi deps).1.Fields =
          data.Fields ++ mi.fields.map (fun p => mkFieldData mi p.1 p.2))
    ∧ (∀ (fieldName : String) (fi : FieldInfo), fi.isRelation = true →
        mkFieldData mi fieldName fi =
          { Name := fieldName, typ := fi.relatedModelName ++ "Set", TypeIsRS := true }
        ∧ (mkFieldData mi fieldName fi).typ ≠ goTypeString RecordCollectionType)
    ∧ (∀ (fieldName : String) (fi : FieldInfo), fi.isRelation = false →
        fi.structFieldType = RecordCollectionType →
        (mkFieldData mi fieldName fi).typ = mi.name ++ "Set"
        ∧ (mkFieldData mi fieldName fi).typ ≠ goTypeString RecordCollectionType)
    ∧ (∀ (outs rest : List GoType), outs = RecordCollectionType :: rest →
        mkReturns mi.name outs = (mi.name ++ "Set", true)
        ∧ (mkReturns mi.name outs).1 ≠ goTypeString RecordCollectionType)
    ∧ (∀ (reg : ModelRegistry) (astData : ASTDataMap) (data : modelData)
        (deps : List String) (methodName : String) (methInfo : MethodInfo)
        (d' : modelData) (dp' : List String),
        processMethod reg mi astData data deps methodName methInfo = some (d', dp') →
        d'.Methods = data.Methods ++
          [processedMethodData reg mi astData methodName methInfo]
        ∧ (processedMethodData reg mi astData methodName methInfo).Returns =
            (mkReturns mi.name methInfo.outs).1
        ∧ (processedMethodData reg mi astData methodName methInfo).ReturnsIsRS =
            (mkReturns mi.name methInfo.outs).2) := by
  have hsane := sanitizedFieldType_container mi.name hpool
  refine ⟨?_, ?_, ?_, ?_, ?_⟩
  · intro data deps
    exact addFieldsGo_Fields mi mi.fields data deps
  · intro fieldName fi hrel
    refine ⟨by simp [mkFieldData, hrel], ?_⟩
    simp only [mkFieldData, hrel, if_true]
    exact set_suffix_ne_container _
  · intro fieldName fi hrel hty
    have h1 : (mkFieldData mi fieldName fi).typ = mi.name ++ "Set" := by
      simp [mkFieldData, hrel, hty, hsane]
    exact ⟨h1, h1 ▸ set_suffix_ne_container _⟩
  · intro outs rest houts
    have h1 : mkReturns mi.name outs = (mi.name ++ "Set", true) := by
      rw [houts]
      unfold mkReturns
      exact hsane
    refine ⟨h1, ?_⟩
    rw [h1]
    exact set_suffix_ne_container _
  · intro reg astData data deps methodName methInfo d' dp' h
    exact ⟨processMethod_split reg mi astData data deps methodName methInfo d' dp' h,
      rfl, rfl⟩

/-- Witness for C1 at the concrete model `Test__User` with its relation
field `Profile` (target `Test__Profile`) and a method returning the
container type. -/
theorem c1_relation_rewrapping_witness :
    mkFieldData Examples.exUser "Profile" Examples.exProfileField =
      { Name := "Profile", typ := "Test__ProfileSet", TypeIsRS := true }
    ∧ mkReturns "Test__User" [RecordCollectionType] = ("Test__UserSet", true) := by
  refine ⟨((c1_relation_rewrapping Examples.exUser (by decide)).2.1 "Profile"
    Examples.exProfileField rfl).1, ?_⟩
  exact ((c1_relation_rewrapping Examples.exUser (by decide)).2.2.2.1
    [RecordCollectionType] [] rfl).1

theorem addMethodsGo_names (reg : ModelRegistry) (mi : ModelInfo)
    (astData : ASTDataMap) (l : List (String × MethodInfo)) :
    ∀ (data : modelData) (deps : List String) (d' : modelData) (dp' : List String),
      addMethodsGo reg mi astData data deps l = some (d', dp') →
      d'.Methods.map methodData.Name =
        data.Methods.map methodData.Name ++
          (l.map Prod.fst).filter (fun nm => !specificB nm) := by
  induction l with
  | nil =>
    intro data deps d' dp' h
    simp only [addMethodsGo, Option.some.injEq, Prod.mk.injEq] at h
    rw [← h.1]
    simp
  | cons p t ih =>
    intro data deps d' dp' h
    obtain ⟨mname, minfo⟩ := p
    unfold addMethodsGo at h
    by_cases hs : specificB mname
    · rw [if_pos hs] at h
      rw [ih _ _ _ _ h]
      simp [hs]
    · rw [if_neg hs] at h
      cases hp : processMethod reg mi astData data deps mname minfo with
      | none =>
        rw [hp] at h
        cases h
      | some upd =>
        rw [hp] at h
        have hsplit := processMethod_split reg mi astData data deps mname minfo
          upd.1 upd.2 (by rw [hp])
        rw [ih _ _ _ _ h, hsplit]
        simp [hs, processedMethodData_Name]

/-- C7: for every model, the composed methods named `Create`, `First` and
`All` are excluded from the generic per-method wrapper emission, and
every other composed method produces exactly one wrapper entry: when the
method loop succeeds, the emitted wrapper names are exactly the method
registry's names with the `specificMethods` filtered out, in registry
order. -/
theorem c7_specific_methods_excluded (reg : ModelRegistry) (mi : ModelInfo)
    (astData : ASTDataMap) (data : modelData) (deps : List String)
    (d' : modelData) (dp' : List String)
    (h : addMethodsToModelData reg data mi astData deps = some (d', dp')) :
    d'.Methods.map methodData.Name =
      data.Methods.map methodData.Name ++
        (mi.methods.map Prod.fst).filter (fun nm => !specificB nm)
    ∧ specificB "Create" = true ∧ specificB "First" = true ∧ specificB "All" = true :=
  ⟨addMethodsGo_names reg mi astData mi.methods data deps d' dp' h, rfl, rfl, rfl⟩

/-- Witness for C7: on a model with methods `Create` and `Go7`, only
`Go7` gets a generic wrapper entry. -/
theorem c7_specific_methods_excluded_witness :
    ({ Name := "M", Deps := [], Fields := [],
       Methods := [{ Name := "Go7", Doc := "", Params := "", ParamsWithType := "",
                     Returns := "", ReturnsIsRS := false }] } : modelData).Methods.map
        methodData.Name =
      Examples.exData0.Methods.map methodData.Name ++
        (Examples.exM7.methods.map Prod.fst).filter (fun nm => !specificB nm)
    ∧ specificB "Create" = true ∧ specificB "First" = true ∧ specificB "All" = true :=
  c7_specific_methods_excluded Examples.exReg7 Examples.exM7 [] Examples.exData0 []
    { Name := "M", Deps := [], Fields := [],
      Methods := [{ Name := "Go7", Doc := "", Params := "", ParamsWithType := "",
                    Returns := "", ReturnsIsRS := false }] } [] (by rfl)

theorem processMethod_none_of_short (reg : ModelRegistry) (mi : ModelInfo)
    (astData : ASTDataMap) (data : modelData) (deps : List String)
    (methodName : String) (methInfo : MethodInfo)
    (hlen : (lookupASTData astData reg.commonMixins mi.mixins mi.name
      methodName).Params.length < methInfo.params.length) :
    processMethod reg mi astData data deps methodName methInfo = none := by
  unfold processMethod
  rw [if_pos hlen]

theorem addMethodsGo_none_of_short (reg : ModelRegistry) (mi : ModelInfo)
    (astData : ASTDataMap) (methodName : String) (methInfo : MethodInfo)
    (hs : specificB methodName = false)
    (hlen : (lookupASTData astData reg.commonMixins mi.mixins mi.name
      methodName).Params.length < methInfo.params.length)
    (l : List (String × MethodInfo)) :
    ∀ (data : modelData) (deps : List String), (methodName, methInfo) ∈ l →
      addMethodsGo reg mi astData data deps l = none := by
  induction l with
  | nil =>
    intro data deps hmem
    cases hmem
  | cons p t ih =>
    intro data deps hmem
    obtain ⟨mname, minfo⟩ := p
    rcases List.mem_cons.mp hmem with heq | hmem'
    · obtain ⟨h1, h2⟩ := Prod.mk.injEq .. ▸ heq.symm
      subst h1
      subst h2
      unfold addMethodsGo
      rw [if_neg (by rw [hs]; exact Bool.false_ne_true),
        processMethod_none_of_short reg mi astData data deps _ _ hlen]
    · unfold addMethodsGo
      by_cases hsp : specificB mname
      · rw [if_pos hsp]
        exact ih data deps hmem'
      · rw [if_neg hsp]
        cases hp : processMethod reg mi astData data deps mname minfo with
        | none => rfl
        | some upd => exact ih upd.1 upd.2 hmem'

/-- C2 (amended): if the recovered parameter-name list for a composed,
non-reserved (model, method) pair is SHORTER than the reflected parameter
count, generation fails — the method loop returns no result (the Go code
panics with an index-out-of-range before reaching the file-creation
call), so `buildModelData` produces no output for that model; but if the
list is LONGER, the method is processed successfully and the extra names
are silently ignored (the loop reads only the first `NumIn()-1` names),
so a longer list does not make generation fail. -/
theorem c2_signature_alignment :
    (∀ (reg : ModelRegistry) (mi : ModelInfo) (astData : ASTDataMap)
       (data : modelData) (deps : List String) (methodName : String)
       (methInfo : MethodInfo), (methodName, methInfo) ∈ mi.methods →
       specificB methodName = false →
       (lookupASTData astData reg.commonMixins mi.mixins mi.name
         methodName).Params.length < methInfo.params.length →
       addMethodsToModelData reg data mi astData deps = none
       ∧ buildModelData reg mi astData = none)
    ∧ (∀ (reg : ModelRegistry) (mi : ModelInfo) (astData : ASTDataMap)
       (data : modelData) (deps : List String) (methodName : String)
       (methInfo : MethodInfo),
       ¬ (lookupASTData astData reg.commonMixins mi.mixins mi.name
         methodName).Params.length < methInfo.params.length →
       (processMethod reg mi astData data deps methodName methInfo).isSome = true) := by
  constructor
  · intro reg mi astData data deps methodName methInfo hmem hs hlen
    have hnone : ∀ (data' : modelData) (deps' : List String),
        addMethodsToModelData reg data' mi astData deps' = none := by
      intro data' deps'
      exact addMethodsGo_none_of_short reg mi astData methodName methInfo hs hlen
        mi.methods data' deps' hmem
    refine ⟨hnone data deps, ?_⟩
    simp [buildModelData, hnone]
  · intro reg mi astData data deps methodName methInfo hlen
    unfold processMethod
    rw [if_neg hlen]
    rfl

/-- Counterexample for C2 as stated: for model `Test__User`, method `Foo`
the recovered name list has two names while the reflected method has one
parameter — the lengths differ — yet generation succeeds and emits a
wrapper for the first name only (`"a int"`): the list is silently
truncated instead of failing. -/
theorem c2_signature_alignment_counterexample :
    (lookupASTData Examples.exAst Examples.exReg.commonMixins
        Examples.exUser.mixins "Test__User" "Foo").Params.length = 2
    ∧ Examples.exFoo.params.length = 1
    ∧ (buildModelData Examples.exReg Examples.exUser Examples.exAst).isSome = true
    ∧ ((buildModelData Examples.exReg Examples.exUser Examples.exAst).map
        (fun d => d.Methods.map methodData.ParamsWithType)) = some ["a int"] := by
  refine ⟨rfl, rfl, rfl, rfl⟩

/-- Witness for C2 (amended): for model `Test__Post`, method `Bar` the
recovered list has one name for two reflected parameters, and generation
produces nothing for the model. -/
theorem c2_signature_alignment_witness :
    addMethodsToModelData Examples.exReg2 Examples.exData0 Examples.exPost
        Examples.exAst2 [] = none
    ∧ buildModelData Examples.exReg2 Examples.exPost Examples.exAst2 = none :=
  c2_signature_alignment.1 Examples.exReg2 Examples.exPost Examples.exAst2
    Examples.exData0 [] "Bar" Examples.exBar (by decide) (by decide) (by decide)

theorem firstHit_append (astData : ASTDataMap) (a b : List String)
    (methodName : String) :
    firstHit astData (a ++ b) methodName =
      orO (firstHit astData a methodName) (firstHit astData b methodName) := by
  induction a with
  | nil => simp [firstHit, orO]
  | cons m t ih =>
    simp only [List.cons_append]
    cases ha : alookup astData (m, methodName) with
    | none => simp [firstHit, ha, ih]
    | some d => simp [firstHit, ha, orO]

theorem walkMixins_eq_firstHit_reverse (astData : ASTDataMap) (l : List String)
    (methodName : String) :
    walkMixins astData l methodName = firstHit astData l.reverse methodName := by
  induction l with
  | nil => rfl
  | cons m t ih =>
    unfold walkMixins
    rw [ih, List.reverse_cons, firstHit_append]
    cases hh : firstHit astData t.reverse methodName <;>
      cases ha : alookup astData (m, methodName) <;>
        simp [orO, firstHit, hh, ha]

/-- C4: the recovered parameter names and documentation for a (model,
method) pair are resolved first-match-wins in this order: (1) the exact
(model, method) key; (2) the composed mixin list
`commonMixins ++ mi.mixins` walked from the most recently applied (last)
mixin to the least recently applied, keyed (mixin, method); (3) the key
with empty model name — whose absence yields the zero `MethodASTData`. -/
theorem c4_resolution_order (astData : ASTDataMap) (commonMixins mixins : List String)
    (modelName methodName : String) :
    (∀ d, alookup astData (modelName, methodName) = some d →
       lookupASTData astData commonMixins mixins modelName methodName = d)
    ∧ (∀ d, alookup astData (modelName, methodName) = none →
       firstHit astData (commonMixins ++ mixins).reverse methodName = some d →
       lookupASTData astData commonMixins mixins modelName methodName = d)
    ∧ (alookup astData (modelName, methodName) = none →
       firstHit astData (commonMixins ++ mixins).reverse methodName = none →
       lookupASTData astData commonMixins mixins modelName methodName =
         (alookup astData ("", methodName)).getD { Params := [], Doc := "" }) := by
  refine ⟨?_, ?_, ?_⟩
  · intro d h1
    simp [lookupASTData, h1]
  · intro d h1 h2
    simp only [lookupASTData, h1]
    rw [walkMixins_eq_firstHit_reverse, h2]
  · intro h1 h2
    simp only [lookupASTData, h1]
    rw [walkMixins_eq_firstHit_reverse, h2]

/-- Witness for C4: with no exact entry for (`M`, `Fn`) and AST entries
for both mixins `MixA` and `MixB`, the most recently applied mixin
`MixB` wins. -/
theorem c4_resolution_order_witness :
    lookupASTData Examples.exAst4 ["BaseMixin"] ["MixA", "MixB"] "M" "Fn" =
      { Params := ["pb"], Doc := "from B" } :=
  (c4_resolution_order Examples.exAst4 ["BaseMixin"] ["MixA", "MixB"] "M" "Fn").2.1
    { Params := ["pb"], Doc := "from B" } rfl rfl

/-- C5 (code bug): `generateModelPoolFile` seeds the generation unit's
`Deps` list with `generate.ModelsPath` but seeds the dedup map `deps`
only with `generate.PoolPath`; hence the first field or method type
declared in the models package — here the `RecordCollection`-typed
relation field `Profile` of `Test__User` — appends `ModelsPath` a second
time, and the dependency list contains it twice instead of exactly
once. -/
theorem c5_models_path_duplicated :
    (buildModelData Examples.exReg Examples.exUser Examples.exAst).map modelData.Deps
      = some [ModelsPath, ModelsPath]
    ∧ ((buildModelData Examples.exReg Examples.exUser Examples.exAst).map
        (fun d => d.Deps.count ModelsPath)) = some 2 := by
  refine ⟨rfl, rfl⟩

theorem getD_map_lt {A B : Type} (f : A → B) (l : List A) :
    ∀ (i : Nat), i < l.length → ∀ (d : B) (d' : A),
      (l.map f).getD i d = f (l.getD i d') := by
  induction l with
  | nil =>
    intro i hi
    cases hi
  | cons a t ih =>
    intro i hi d d'
    cases i with
    | zero => rfl
    | succ j => exact ih j (Nat.lt_of_succ_lt_succ hi) d d'

theorem map_fst_generatePoolOutputs (dir : String) (reg : ModelRegistry)
    (astData : ASTDataMap) :
    (generatePoolOutputs dir reg astData).map Prod.fst =
      reg.registryByName.map (fun p => joinPath dir (p.1.toLower ++ ".go")) := by
  simp [generatePoolOutputs]

/-- C9: the generator's per-model loop produces exactly one output file
per registered model, and the file at position `i` is named after the
lower-cased name of the `i`-th registered model followed by the `.go`
extension, joined onto the caller-supplied output directory. -/
theorem c9_one_file_per_model (dir : String) (reg : ModelRegistry)
    (astData : ASTDataMap) :
    (generatePoolOutputs dir reg astData).length = reg.registryByName.length
    ∧ ∀ i, i < reg.registryByName.length →
        ((generatePoolOutputs dir reg astData).map Prod.fst).getD i "" =
          joinPath dir (((reg.registryByName.map Prod.fst).getD i "").toLower ++ ".go") := by
  constructor
  · simp [generatePoolOutputs]
  · intro i hi
    rw [map_fst_generatePoolOutputs,
      getD_map_lt (fun p => joinPath dir (p.1.toLower ++ ".go"))
        reg.registryByName i hi "" ("", Examples.miDefault),
      getD_map_lt Prod.fst reg.registryByName i hi "" ("", Examples.miDefault)]

/-- Witness for C9 at the one-model registry: the single output file is
`pool/test__user.go`. -/
theorem c9_one_file_per_model_witness :
    (generatePoolOutputs "pool" Examples.exReg Examples.exAst).length =
      Examples.exReg.registryByName.length
    ∧ ((generatePoolOutputs "pool" Examples.exReg Examples.exAst).map Prod.fst).getD 0 "" =
        joinPath "pool"
          (((Examples.exReg.registryByName.map Prod.fst).getD 0 "").toLower ++ ".go") :=
  ⟨(c9_one_file_per_model "pool" Examples.exReg Examples.exAst).1,
   (c9_one_file_per_model "pool" Examples.exReg Examples.exAst).2 0 (by decide)⟩

end Models

namespace Actions

/-- C6: after adding an action with ID `a1` and Name `My Action` to a
collection, `MakeActionRef "a1"` returns the pair `("a1", "My Action")`;
for an id with no registered action `MakeActionRef` returns the empty
`ActionRef`; and the empty `ActionRef` marshals to the JSON value null,
not to a pair of empty strings. -/
theorem c6_action_identity :
    (∀ (c : Collection) (a : BaseAction), a.ID = "a1" → a.Name = "My Action" →
       makeActionRef (c.add a) "a1" = ("a1", "My Action"))
    ∧ (∀ (c : Collection) (id : String), c.getById id = none →
       makeActionRef c id = ("", ""))
    ∧ marshalActionRef ("", "") = Json.null
    ∧ marshalActionRef ("", "") ≠ Json.arr [Json.str "", Json.str ""] := by
  refine ⟨?_, ?_, rfl, ?_⟩
  · intro c a hid hname
    have h1 : (c.add a).getById "a1" = some a := by
      unfold Collection.add Collection.getById
      rw [alookup_insertOrReplace, hid, if_pos rfl]
    simp [makeActionRef, h1, hname]
  · intro c id h
    simp [makeActionRef, h]
  · intro h
    rw [show marshalActionRef ("", "") = Json.null from rfl] at h
    exact Json.noConfusion h

/-- Witness for C6 at the concrete action `{ID := "a1", Name := "My
Action"}` registered in a fresh collection, and the unregistered id
`"zz"`. -/
theorem c6_action_identity_witness :
    makeActionRef (Collection.add newActionsCollection Examples.exAction) "a1" =
      ("a1", "My Action")
    ∧ makeActionRef newActionsCollection "zz" = ("", "") :=
  ⟨c6_action_identity.1 newActionsCollection Examples.exAction rfl rfl,
   c6_action_identity.2.1 newActionsCollection "zz" rfl⟩

/-- C10: `ActionRef.Scan` returns an error exactly when the source is
neither a string nor a byte slice; on such an error the receiver is left
unchanged; and on a string or byte-slice source the receiver is set to
`MakeActionRef` of the source's string content with a nil error. -/
theorem c10_scan_behavior (c : Collection) (ar : ActionRef) (src : ScanSrc) :
    ((scanActionRef c ar src).2 = none ↔ (scanSrcString src).isSome = true)
    ∧ (∀ s, scanSrcString src = some s →
        scanActionRef c ar src = (makeActionRef c s, none))
    ∧ (scanSrcString src = none →
        (scanActionRef c ar src).1 = ar ∧ (scanActionRef c ar src).2.isSome = true) := by
  refine ⟨?_, ?_, ?_⟩
  · cases src <;> simp [scanActionRef, scanSrcString]
  · intro s hs
    cases src <;> simp [scanSrcString] at hs <;> simp [scanActionRef, hs]
  · intro hs
    cases src <;> simp [scanSrcString] at hs <;> simp [scanActionRef]

/-- Witness for C10: scanning a string source sets the receiver from the
registry; scanning an unsupported source type leaves it unchanged. -/
theorem c10_scan_behavior_witness :
    scanActionRef [] ("x", "y") (ScanSrc.str "a1") = (makeActionRef [] "a1", none)
    ∧ (scanActionRef [] ("x", "y") (ScanSrc.other "float64")).1 = ("x", "y") :=
  ⟨(c10_scan_behavior [] ("x", "y") (ScanSrc.str "a1")).2.1 "a1" rfl,
   ((c10_scan_behavior [] ("x", "y") (ScanSrc.other "float64")).2.2 rfl).1⟩

/-- C8 (amended): every write of the action registry's lookup table
(`Collection.Add`) is performed while holding the exclusive side of the
collection's reader/writer lock, but the read in `Collection.GetById` is
performed without acquiring the reader lock at all: the writes are
guarded, the reads are not. -/
theorem c8_lock_discipline :
    (∀ a : BaseAction, accessesGuarded (addOps a) = true)
    ∧ (∀ id : String, accessesGuarded (getByIdOps id) = false) :=
  ⟨fun _ => rfl, fun _ => rfl⟩

/-- Counterexample for C8 as stated: the lookup-table read performed by
`GetById "a1"` is not guarded by the collection's lock, because `GetById`
acquires no lock. -/
theorem c8_lock_discipline_counterexample :
    accessesGuarded (getByIdOps "a1") = false := rfl

end Actions
